import Mathlib

set_option maxHeartbeats 1000000

/-!
Verification of the rayon-future bridge (src/lib.rs).

The source is a single Rust file providing:
  spawn(f)      : creates a bounded(1) crossbeam channel and a
                  Mutex-guarded record State { recv, waker }, submits a
                  runner closure to rayon, and returns a RayonFuture;
  the runner    : computes result = f(), performs send(result).unwrap()
                  WITHOUT holding the lock, then locks the state, takes
                  any stored waker and, still inside the scope of the
                  lock guard, invokes it; the guard and the sender are
                  dropped when the runner closure finishes;
  Future::poll  : locks the state, does recv.try_recv(); on Ok(r) it
                  returns Ready(r); on Empty it stores the supplied
                  waker (overwriting) and returns Pending; on
                  Disconnected it panics.

We embed this in two layers:
  1. a pure transcription of the channel operations and of the in-lock
     body of Future::poll (Chan.send, Chan.tryRecv, poll);
  2. a small-step interleaving system (Sys, pstep, cstep, run) whose
     atomic steps are exactly the lock-protected critical sections plus
     the lock-free send, so that every thread interleaving of the real
     program corresponds to a list of Action values. Panics are
     modelled as the step function returning none. Two ghost history
     fields record every registered waker (pends, most recent first)
     and every invoked waker (woken).
-/

namespace RayonFut

/-- Outcome of crossbeam try_recv on the receiving end. -/
inductive TryRecvError
  | Empty
  | Disconnected
deriving DecidableEq

/-- The bounded(1) crossbeam channel from spawn: a one-slot buffer plus
whether the sending end is still alive. -/
structure Chan (α : Type) where
  buf : Option α
  senderAlive : Bool
deriving DecidableEq

/-- Sending on the bounded(1) channel: succeeds when the slot is free;
a full slot would block the sender (returns none, meaning no progress). -/
def Chan.send {α : Type} (c : Chan α) (v : α) : Option (Chan α) :=
  match c.buf with
  | none => some ⟨some v, c.senderAlive⟩
  | some _ => none

/-- Non-blocking receive, as in Future::poll: a buffered value is
returned (draining the slot) even if the sender is gone; otherwise the
result is Empty while the sender is alive and Disconnected after it was
dropped. -/
def Chan.tryRecv {α : Type} (c : Chan α) : Except TryRecvError α × Chan α :=
  match c.buf with
  | some v => (Except.ok v, ⟨none, c.senderAlive⟩)
  | none =>
      if c.senderAlive then (Except.error TryRecvError.Empty, c)
      else (Except.error TryRecvError.Disconnected, c)

/-- Poll outcome, std::task::Poll. -/
inductive Poll (α : Type)
  | Ready (v : α)
  | Pending
deriving DecidableEq

/-- The lock-guarded record State { recv, waker } of the source. -/
structure State (α ω : Type) where
  recv : Chan α
  waker : Option ω
deriving DecidableEq

/-- The body of Future::poll for RayonFuture, executed under the state
lock: try_recv, then Ready on a value, Pending after storing the
supplied waker on Empty, and a panic (modelled as none) on
Disconnected. -/
def poll {α ω : Type} (st : State α ω) (w : ω) : Option (Poll α × State α ω) :=
  match Chan.tryRecv st.recv with
  | (Except.ok r, c) => some (Poll.Ready r, ⟨c, st.waker⟩)
  | (Except.error TryRecvError.Empty, c) => some (Poll.Pending, ⟨c, some w⟩)
  | (Except.error TryRecvError.Disconnected, _) => none

/-- Which thread holds the state mutex. -/
inductive Agent
  | prod
  | cons
deriving DecidableEq

/-- Program counter of the runner closure submitted to rayon:
before f(), after f() with the result in hand, after the lock-free
send, inside the lock about to take the waker, after the take/wake but
still holding the guard, and finished (guard and sender dropped). -/
inductive PPC
  | start
  | afterF
  | sent
  | critical
  | afterWake
  | done
deriving DecidableEq

/-- Program counter of the consumer: between polls, holding the lock
about to try_recv (with the waker supplied to this poll), having
observed Empty and about to store the waker, or completed with the
received value. -/
inductive CPC (α ω : Type)
  | idle
  | locked (w : ω)
  | empty (w : ω)
  | finished (v : α)
deriving DecidableEq

/-- Behaviour of the user closure handed to spawn: it either returns a
value or terminates abnormally without producing one. -/
inductive ClosureBeh (α : Type)
  | returns (v : α)
  | panics
deriving DecidableEq

/-- Global state of one spawn instance: the channel, the stored waker
and the lock owner (the fields of the Mutex-guarded State plus the
mutex itself), both program counters, and two ghost histories: pends
records the waker of every poll that returned Pending (most recent
first), woken records every waker invocation by the runner. -/
structure Sys (α ω : Type) where
  chan : Chan α
  waker : Option ω
  lock : Option Agent
  ppc : PPC
  cpc : CPC α ω
  pends : List ω
  woken : List ω
deriving DecidableEq

/-- The state set up by spawn before the runner and any poll run:
empty channel with a live sender, no waker, lock free. -/
def spawnInit {α ω : Type} : Sys α ω :=
  ⟨⟨none, true⟩, none, none, PPC.start, CPC.idle, [], []⟩

/-- One step of the runner closure. Acquiring a held lock and all
terminal or unreachable situations make no progress (the state is
returned unchanged); none would mean a panic, which the runner never
does. On abnormal closure termination the sender is dropped without a
send and the lock is never touched. -/
def pstep {α ω : Type} (beh : ClosureBeh α) (s : Sys α ω) : Option (Sys α ω) :=
  match s.ppc with
  | PPC.start =>
      match beh with
      | ClosureBeh.returns _ => some { s with ppc := PPC.afterF }
      | ClosureBeh.panics =>
          some { s with ppc := PPC.done, chan := ⟨s.chan.buf, false⟩ }
  | PPC.afterF =>
      match beh with
      | ClosureBeh.returns v =>
          match Chan.send s.chan v with
          | some c => some { s with ppc := PPC.sent, chan := c }
          | none => some s
      | ClosureBeh.panics => some s
  | PPC.sent =>
      if s.lock = none then
        some { s with ppc := PPC.critical, lock := some Agent.prod }
      else some s
  | PPC.critical =>
      match s.waker with
      | some w =>
          some { s with ppc := PPC.afterWake, waker := none, woken := w :: s.woken }
      | none => some { s with ppc := PPC.afterWake }
  | PPC.afterWake =>
      some { s with ppc := PPC.done, lock := none, chan := ⟨s.chan.buf, false⟩ }
  | PPC.done => some s

/-- One step of the consumer. From idle it starts a poll with the waker
w supplied by the executor by acquiring the lock; while mid-poll the
stored waker argument is the one captured at poll entry. try_recv on a
Disconnected channel is the panic branch of Future::poll and yields
none. A completed future is not polled again (one-shot discipline). -/
def cstep {α ω : Type} (w : ω) (s : Sys α ω) : Option (Sys α ω) :=
  match s.cpc with
  | CPC.idle =>
      if s.lock = none then
        some { s with cpc := CPC.locked w, lock := some Agent.cons }
      else some s
  | CPC.locked w0 =>
      match Chan.tryRecv s.chan with
      | (Except.ok r, c) =>
          some { s with cpc := CPC.finished r, chan := c, lock := none }
      | (Except.error TryRecvError.Empty, c) =>
          some { s with cpc := CPC.empty w0, chan := c }
      | (Except.error TryRecvError.Disconnected, _) => none
  | CPC.empty w0 =>
      some { s with cpc := CPC.idle, waker := some w0, lock := none,
                    pends := w0 :: s.pends }
  | CPC.finished _ => some s

/-- A scheduling decision: run the producer one step, or the consumer
one step supplying waker w for a freshly started poll. -/
inductive Action (ω : Type)
  | prod
  | cons (w : ω)

/-- Dispatch one scheduled step. -/
def step {α ω : Type} (beh : ClosureBeh α) (a : Action ω) (s : Sys α ω) :
    Option (Sys α ω) :=
  match a with
  | Action.prod => pstep beh s
  | Action.cons w => cstep w s

/-- Run a whole schedule; none means some step panicked. -/
def run {α ω : Type} (beh : ClosureBeh α) : List (Action ω) → Sys α ω → Option (Sys α ω)
  | [], s => some s
  | a :: acts, s =>
      match step beh a s with
      | some s1 => run beh acts s1
      | none => none

/-- Reachability from the spawn-time state under some interleaving. -/
def Reach {α ω : Type} (beh : ClosureBeh α) (s : Sys α ω) : Prop :=
  ∃ acts : List (Action ω), run beh acts spawnInit = some s

/-- Inductive invariant of the system when the closure returns v:
lock ownership matches the program counters, the channel only ever
carries v, a registered waker is the most recently supplied one and is
cleared by the time the runner has passed its take/wake step, and every
registered-then-superseded-or-taken waker is accounted for. -/
structure Inv {α ω : Type} (v : α) (s : Sys α ω) : Prop where
  lockP : s.lock = some Agent.prod ↔ (s.ppc = PPC.critical ∨ s.ppc = PPC.afterWake)
  lockC : s.lock = some Agent.cons ↔ (∃ w, s.cpc = CPC.locked w ∨ s.cpc = CPC.empty w)
  bufVal : ∀ x, s.chan.buf = some x → x = v
  bufPre : s.ppc = PPC.start ∨ s.ppc = PPC.afterF → s.chan.buf = none
  bufPost : s.ppc = PPC.sent ∨ s.ppc = PPC.critical ∨ s.ppc = PPC.afterWake ∨
      s.ppc = PPC.done → s.chan.buf = some v ∨ s.cpc = CPC.finished v
  alive : s.chan.senderAlive = true ↔ s.ppc ≠ PPC.done
  wclr : s.ppc = PPC.afterWake ∨ s.ppc = PPC.done → s.waker = none
  wlast : ∀ w, s.waker = some w → s.pends.head? = some w
  pfate : ∀ w, s.pends.head? = some w → s.waker = some w ∨ w ∈ s.woken
  notDoneE : ∀ w, s.cpc = CPC.empty w → s.ppc ≠ PPC.done
  finV : ∀ r, s.cpc = CPC.finished r → r = v

theorem inv_init {α ω : Type} (v : α) : Inv v (spawnInit : Sys α ω) := by
  refine ⟨?_, ?_, ?_, ?_, ?_, ?_, ?_, ?_, ?_, ?_, ?_⟩ <;> simp [spawnInit]

theorem inv_step {α ω : Type} {v : α} {s s' : Sys α ω} (a : Action ω)
    (hI : Inv v s) (h : step (ClosureBeh.returns v) a s = some s') : Inv v s' := by
  obtain ⟨h1, h2, h3, h4, h5, h6, h7, h8, h9, h10, h11⟩ := hI
  obtain ⟨⟨buf, al⟩, waker, lock, ppc, cpc, pends, woken⟩ := s
  cases a with
  | prod =>
    cases ppc with
    | start =>
      simp only [step, pstep] at h
      have h' := Option.some.inj h
      subst h'
      refine ⟨?_, ?_, ?_, ?_, ?_, ?_, ?_, ?_, ?_, ?_, ?_⟩ <;> simp_all <;>
          first | assumption | tauto
    | afterF =>
      cases buf with
      | none =>
        simp only [step, pstep, Chan.send] at h
        have h' := Option.some.inj h
        subst h'
        refine ⟨?_, ?_, ?_, ?_, ?_, ?_, ?_, ?_, ?_, ?_, ?_⟩ <;> simp_all <;>
          first | assumption | tauto
      | some x =>
        simp only [step, pstep, Chan.send] at h
        have h' := Option.some.inj h
        subst h'
        exact ⟨h1, h2, h3, h4, h5, h6, h7, h8, h9, h10, h11⟩
    | sent =>
      cases lock with
      | none =>
        simp only [step, pstep, if_pos] at h
        have h' := Option.some.inj h
        subst h'
        refine ⟨?_, ?_, ?_, ?_, ?_, ?_, ?_, ?_, ?_, ?_, ?_⟩ <;> simp_all <;>
          first | assumption | tauto
      | some ag =>
        simp only [step, pstep] at h
        rw [if_neg (by simp)] at h
        have h' := Option.some.inj h
        subst h'
        exact ⟨h1, h2, h3, h4, h5, h6, h7, h8, h9, h10, h11⟩
    | critical =>
      cases waker with
      | none =>
        simp only [step, pstep] at h
        have h' := Option.some.inj h
        subst h'
        refine ⟨?_, ?_, ?_, ?_, ?_, ?_, ?_, ?_, ?_, ?_, ?_⟩ <;> simp_all <;>
          first | assumption | tauto
      | some w0 =>
        simp only [step, pstep] at h
        have h' := Option.some.inj h
        subst h'
        refine ⟨?_, ?_, ?_, ?_, ?_, ?_, ?_, ?_, ?_, ?_, ?_⟩ <;> simp_all <;>
          first | assumption | tauto
    | afterWake =>
      simp only [step, pstep] at h
      have h' := Option.some.inj h
      subst h'
      refine ⟨?_, ?_, ?_, ?_, ?_, ?_, ?_, ?_, ?_, ?_, ?_⟩ <;> simp_all <;>
          first | assumption | tauto
    | done =>
      simp only [step, pstep] at h
      have h' := Option.some.inj h
      subst h'
      exact ⟨h1, h2, h3, h4, h5, h6, h7, h8, h9, h10, h11⟩
  | cons w =>
    cases cpc with
    | idle =>
      cases lock with
      | none =>
        simp only [step, cstep, if_pos] at h
        have h' := Option.some.inj h
        subst h'
        refine ⟨?_, ?_, ?_, ?_, ?_, ?_, ?_, ?_, ?_, ?_, ?_⟩ <;> simp_all <;>
          first | assumption | tauto
      | some ag =>
        simp only [step, cstep] at h
        rw [if_neg (by simp)] at h
        have h' := Option.some.inj h
        subst h'
        exact ⟨h1, h2, h3, h4, h5, h6, h7, h8, h9, h10, h11⟩
    | locked w0 =>
      cases buf with
      | some x =>
        simp only [step, cstep, Chan.tryRecv] at h
        have h' := Option.some.inj h
        subst h'
        refine ⟨?_, ?_, ?_, ?_, ?_, ?_, ?_, ?_, ?_, ?_, ?_⟩ <;> simp_all <;>
          first | assumption | tauto
      | none =>
        cases al with
        | true =>
          simp only [step, cstep, Chan.tryRecv] at h
          have h' := Option.some.inj h
          subst h'
          refine ⟨?_, ?_, ?_, ?_, ?_, ?_, ?_, ?_, ?_, ?_, ?_⟩ <;> simp_all <;>
          first | assumption | tauto
        | false =>
          simp [step, cstep, Chan.tryRecv] at h
    | empty w0 =>
      simp only [step, cstep] at h
      have h' := Option.some.inj h
      subst h'
      refine ⟨?_, ?_, ?_, ?_, ?_, ?_, ?_, ?_, ?_, ?_, ?_⟩ <;> simp_all <;>
          first | assumption | tauto
    | finished x =>
      simp only [step, cstep] at h
      have h' := Option.some.inj h
      subst h'
      exact ⟨h1, h2, h3, h4, h5, h6, h7, h8, h9, h10, h11⟩

theorem inv_run {α ω : Type} {v : α} (acts : List (Action ω)) :
    ∀ s0 s : Sys α ω, Inv v s0 →
      run (ClosureBeh.returns v) acts s0 = some s → Inv v s := by
  induction acts with
  | nil =>
      intro s0 s hI h
      simp only [run] at h
      exact (Option.some.inj h) ▸ hI
  | cons a acts ih =>
      intro s0 s hI h
      simp only [run] at h
      cases hstep : step (ClosureBeh.returns v) a s0 with
      | none => rw [hstep] at h; cases h
      | some s1 =>
          rw [hstep] at h
          exact ih s1 s (inv_step a hI hstep) h

theorem inv_reach {α ω : Type} {v : α} {s : Sys α ω}
    (h : Reach (ClosureBeh.returns v) s) : Inv v s := by
  obtain ⟨acts, hr⟩ := h
  exact inv_run acts spawnInit s (inv_init v) hr

/-- Inductive invariant of the system when the closure terminates
abnormally without sending: nothing is ever buffered, the runner only
moves from its start straight to done (dropping the sender), and the
consumer can never complete with a value. -/
structure InvP {α ω : Type} (s : Sys α ω) : Prop where
  bufNone : s.chan.buf = none
  ppcOk : s.ppc = PPC.start ∨ s.ppc = PPC.done
  aliveP : s.chan.senderAlive = true ↔ s.ppc ≠ PPC.done
  notFin : ∀ r, s.cpc ≠ CPC.finished r

theorem invP_init {α ω : Type} : InvP (spawnInit : Sys α ω) := by
  refine ⟨?_, ?_, ?_, ?_⟩ <;> simp [spawnInit]

theorem invP_step {α ω : Type} {s s' : Sys α ω} (a : Action ω)
    (hI : InvP s) (h : step (ClosureBeh.panics : ClosureBeh α) a s = some s') :
    InvP s' := by
  obtain ⟨h1, h2, h3, h4⟩ := hI
  obtain ⟨⟨buf, al⟩, waker, lock, ppc, cpc, pends, woken⟩ := s
  cases a with
  | prod =>
    cases ppc with
    | start =>
      simp only [step, pstep] at h
      have h' := Option.some.inj h
      subst h'
      refine ⟨?_, ?_, ?_, ?_⟩ <;> simp_all
    | afterF =>
      simp only [step, pstep] at h
      have h' := Option.some.inj h
      subst h'
      exact ⟨h1, h2, h3, h4⟩
    | sent => simp at h2
    | critical => simp at h2
    | afterWake => simp at h2
    | done =>
      simp only [step, pstep] at h
      have h' := Option.some.inj h
      subst h'
      exact ⟨h1, h2, h3, h4⟩
  | cons w =>
    cases cpc with
    | idle =>
      cases lock with
      | none =>
        simp only [step, cstep, if_pos] at h
        have h' := Option.some.inj h
        subst h'
        refine ⟨?_, ?_, ?_, ?_⟩ <;> simp_all
      | some ag =>
        simp only [step, cstep] at h
        rw [if_neg (by simp)] at h
        have h' := Option.some.inj h
        subst h'
        exact ⟨h1, h2, h3, h4⟩
    | locked w0 =>
      cases buf with
      | some x => simp at h1
      | none =>
        cases al with
        | true =>
          simp only [step, cstep, Chan.tryRecv] at h
          have h' := Option.some.inj h
          subst h'
          refine ⟨?_, ?_, ?_, ?_⟩ <;> simp_all
        | false =>
          simp [step, cstep, Chan.tryRecv] at h
    | empty w0 =>
      simp only [step, cstep] at h
      have h' := Option.some.inj h
      subst h'
      refine ⟨?_, ?_, ?_, ?_⟩ <;> simp_all
    | finished x =>
      simp only [step, cstep] at h
      have h' := Option.some.inj h
      subst h'
      exact ⟨h1, h2, h3, h4⟩

theorem invP_run {α ω : Type} (acts : List (Action ω)) :
    ∀ s0 s : Sys α ω, InvP s0 →
      run (ClosureBeh.panics : ClosureBeh α) acts s0 = some s → InvP s := by
  induction acts with
  | nil =>
      intro s0 s hI h
      simp only [run] at h
      exact (Option.some.inj h) ▸ hI
  | cons a acts ih =>
      intro s0 s hI h
      simp only [run] at h
      cases hstep : step (ClosureBeh.panics : ClosureBeh α) a s0 with
      | none => rw [hstep] at h; cases h
      | some s1 =>
          rw [hstep] at h
          exact ih s1 s (invP_step a hI hstep) h

theorem invP_reach {α ω : Type} {s : Sys α ω}
    (h : Reach (ClosureBeh.panics : ClosureBeh α) s) : InvP s := by
  obtain ⟨acts, hr⟩ := h
  exact invP_run acts spawnInit s invP_init hr

/-- Claim C1: for a closure returning v, whatever the interleaving, a
consumer that has completed its await holds exactly the value v the
closure produced, never anything else. -/
theorem spawn_value_exact {α ω : Type} (v : α) (s : Sys α ω) (r : α)
    (hR : Reach (ClosureBeh.returns v) s) (hf : s.cpc = CPC.finished r) : r = v :=
  (inv_reach hR).finV r hf

theorem spawn_value_exact_w : (42 : Nat) = 42 :=
  spawn_value_exact 42
    (⟨⟨none, true⟩, none, none, PPC.sent, CPC.finished 42, [], []⟩ : Sys Nat Nat) 42
    ⟨[Action.prod, Action.prod, Action.cons 0, Action.cons 0], by decide⟩ (by decide)

/-- Claim C2: no lost wakeup. In every interleaving, once the runner has
finished its send-then-take-waker sequence, no registered wake-handle is
left behind un-taken, the wake-handle of the most recent Pending poll
has been invoked, and the value is observable by a direct non-blocking
receive unless the consumer already took it. -/
theorem no_lost_wakeup {α ω : Type} (v : α) (s : Sys α ω)
    (hR : Reach (ClosureBeh.returns v) s) (hd : s.ppc = PPC.done) :
    s.waker = none ∧ (∀ w, s.pends.head? = some w → w ∈ s.woken) ∧
      (s.chan.buf = some v ∨ s.cpc = CPC.finished v) := by
  have hI := inv_reach hR
  have hw : s.waker = none := hI.wclr (Or.inr hd)
  refine ⟨hw, ?_, hI.bufPost (by simp [hd])⟩
  intro w hpend
  rcases hI.pfate w hpend with hx | hx
  · rw [hw] at hx; cases hx
  · exact hx

theorem no_lost_wakeup_w :
    (7 : Nat) ∈ (⟨⟨some 1, false⟩, none, none, PPC.done, CPC.idle, [7], [7]⟩ :
      Sys Nat Nat).woken :=
  (no_lost_wakeup 1 _
    ⟨[Action.cons 7, Action.cons 7, Action.cons 7, Action.prod, Action.prod,
      Action.prod, Action.prod, Action.prod], by decide⟩ (by decide)).2.1 7 (by decide)

/-- Claim C3 as stated: in the abnormal-termination system every poll
keeps completing (with Pending), i.e. no schedule ever makes a poll
panic. -/
def pendingForeverProp : Prop :=
  ∀ acts : List (Action Nat),
    run (ClosureBeh.panics : ClosureBeh Nat) acts (spawnInit : Sys Nat Nat) ≠ none

/-- Claim C3, counterexample: after the worker terminates without
sending, a poll observes the Disconnected slot and panics (the run
aborts with none) instead of returning Pending. -/
theorem pending_forever_refuted : ¬ pendingForeverProp := fun h =>
  h [Action.prod, Action.cons 0, Action.cons 0] (by decide)

/-- Claim C3, amended: if the closure terminates without sending, the
consumer never completes with a value; a poll that finds the sender
gone does not stay Pending but hits the explicit panic branch of poll
(the unexpected-hangup panic), modelled as cstep returning none. -/
theorem panics_never_yields {α ω : Type} (s : Sys α ω)
    (hR : Reach (ClosureBeh.panics : ClosureBeh α) s) :
    (∀ r, s.cpc ≠ CPC.finished r) ∧
      (∀ w0 w1, s.cpc = CPC.locked w0 → s.ppc = PPC.done → cstep w1 s = none) := by
  have hI := invP_reach hR
  refine ⟨hI.notFin, ?_⟩
  intro w0 w1 hc hd
  have hb := hI.bufNone
  have ha : s.chan.senderAlive = false := by
    have hx : ¬ s.chan.senderAlive = true := fun hx => (hI.aliveP.mp hx) hd
    simpa using hx
  simp [cstep, hc, Chan.tryRecv, hb, ha]

theorem panics_never_yields_w :
    cstep 0 (⟨⟨none, false⟩, none, some Agent.cons, PPC.done, CPC.locked 0, [], []⟩ :
      Sys Nat Nat) = none :=
  (panics_never_yields _
    ⟨[Action.prod, Action.cons 0], by decide⟩).2 0 0 (by decide) (by decide)

/-- Claim C4: the poll body acts by cases on the non-blocking receive:
a buffered value is returned Ready with the slot drained and the waker
field untouched, an Empty slot stores the caller-supplied waker
(replacing any previous one) and yields Pending, and a Disconnected
slot is the fatal panic branch, which neither returns Pending nor a
value. -/
theorem poll_case_analysis {α ω : Type} (st : State α ω) (w : ω) :
    (∀ v, st.recv.buf = some v →
      poll st w = some (Poll.Ready v, ⟨⟨none, st.recv.senderAlive⟩, st.waker⟩)) ∧
    (st.recv.buf = none → st.recv.senderAlive = true →
      poll st w = some (Poll.Pending, ⟨st.recv, some w⟩)) ∧
    (st.recv.buf = none → st.recv.senderAlive = false → poll st w = none) := by
  obtain ⟨⟨buf, al⟩, wk⟩ := st
  refine ⟨?_, ?_, ?_⟩ <;> cases buf <;> cases al <;>
    simp [poll, Chan.tryRecv]

theorem poll_case_analysis_w :
    poll (⟨⟨some 5, true⟩, none⟩ : State Nat Nat) 0 =
      some (Poll.Ready 5, ⟨⟨none, true⟩, none⟩) :=
  (poll_case_analysis _ 0).1 5 rfl

/-- Claim C5: with no consumer step at all (the handle is dropped or
never polled), the runner still runs to completion: the closure runs,
the send succeeds structurally (the value sits in the slot unobserved),
no waker is taken and nothing is woken. -/
theorem drop_no_cancel {α ω : Type} (v : α) :
    run (ClosureBeh.returns v)
      [Action.prod, Action.prod, Action.prod, Action.prod, Action.prod]
      (spawnInit : Sys α ω) =
      some ⟨⟨some v, false⟩, none, none, PPC.done, CPC.idle, [], []⟩ := rfl

/-- Claim C6 as stated: whenever the runner invokes a wake-handle, it
does not hold the state lock at that step. -/
def wakeOutsideLockProp : Prop :=
  ∀ s s' : Sys Nat Nat, Reach (ClosureBeh.returns 1) s →
    pstep (ClosureBeh.returns 1) s = some s' → s'.woken ≠ s.woken →
    s.lock ≠ some Agent.prod

/-- Claim C6, counterexample: in the reachable state where the runner is
about to take the registered waker it already holds the lock, and the
invocation step keeps holding it. -/
theorem wake_invoked_under_lock_cex : ¬ wakeOutsideLockProp := fun h =>
  h ⟨⟨some 1, true⟩, some 7, some Agent.prod, PPC.critical, CPC.idle, [7], []⟩
    ⟨⟨some 1, true⟩, none, some Agent.prod, PPC.afterWake, CPC.idle, [7], [7]⟩
    ⟨[Action.cons 7, Action.cons 7, Action.cons 7, Action.prod, Action.prod,
      Action.prod], by decide⟩
    (by decide) (by decide) rfl

/-- Claim C6, amended: the runner takes and invokes the wake-handle
while holding the state lock (the lock guard is dropped only after the
invocation, at the end of the runner); only the closure execution and
the send itself happen without the lock. -/
theorem wake_under_lock {α ω : Type} (v : α) (s s' : Sys α ω)
    (hR : Reach (ClosureBeh.returns v) s)
    (hp : pstep (ClosureBeh.returns v) s = some s') (hw : s'.woken ≠ s.woken) :
    s.lock = some Agent.prod ∧ s'.lock = some Agent.prod ∧
      s.ppc = PPC.critical := by
  have hI := inv_reach hR
  cases hppc : s.ppc with
  | start =>
      simp only [pstep, hppc] at hp
      have h' := Option.some.inj hp
      subst h'
      exact absurd rfl hw
  | afterF =>
      cases hbuf : s.chan.buf with
      | none =>
          simp only [pstep, hppc, Chan.send, hbuf] at hp
          have h' := Option.some.inj hp
          subst h'
          exact absurd rfl hw
      | some x =>
          simp only [pstep, hppc, Chan.send, hbuf] at hp
          have h' := Option.some.inj hp
          subst h'
          exact absurd rfl hw
  | sent =>
      by_cases hl : s.lock = none
      · simp only [pstep, hppc, if_pos hl] at hp
        have h' := Option.some.inj hp
        subst h'
        exact absurd rfl hw
      · simp only [pstep, hppc, if_neg hl] at hp
        have h' := Option.some.inj hp
        subst h'
        exact absurd rfl hw
  | critical =>
      have hlock : s.lock = some Agent.prod := hI.lockP.mpr (Or.inl hppc)
      cases hwk : s.waker with
      | none =>
          simp only [pstep, hppc, hwk] at hp
          have h' := Option.some.inj hp
          subst h'
          exact absurd rfl hw
      | some w0 =>
          simp only [pstep, hppc, hwk] at hp
          have h' := Option.some.inj hp
          subst h'
          exact ⟨hlock, hlock, by simp [hppc]⟩
  | afterWake =>
      simp only [pstep, hppc] at hp
      have h' := Option.some.inj hp
      subst h'
      exact absurd rfl hw
  | done =>
      simp only [pstep, hppc] at hp
      have h' := Option.some.inj hp
      subst h'
      exact absurd rfl hw

theorem wake_under_lock_w :
    (⟨⟨some 1, true⟩, some 7, some Agent.prod, PPC.critical, CPC.idle, [7], []⟩ :
      Sys Nat Nat).lock = some Agent.prod :=
  (wake_under_lock 1 _
    ⟨⟨some 1, true⟩, none, some Agent.prod, PPC.afterWake, CPC.idle, [7], [7]⟩
    ⟨[Action.cons 7, Action.cons 7, Action.cons 7, Action.prod, Action.prod,
      Action.prod], by decide⟩
    (by decide) (by decide)).1

/-- Claim C7 as stated (second half): the send step is performed while
the runner holds the state lock. -/
def sendUnderLockProp : Prop :=
  ∀ s s' : Sys Nat Nat, Reach (ClosureBeh.returns 1) s → s.ppc = PPC.afterF →
    pstep (ClosureBeh.returns 1) s = some s' → s'.ppc = PPC.sent →
    s.lock = some Agent.prod

/-- Claim C7, counterexample: the runner performs its successful send
while the consumer is the one holding the lock, so the send is not
under the lock at all. -/
theorem send_outside_lock_cex : ¬ sendUnderLockProp := by
  intro h
  have hx := h ⟨⟨none, true⟩, none, some Agent.cons, PPC.afterF, CPC.locked 7, [], []⟩
    ⟨⟨some 1, true⟩, none, some Agent.cons, PPC.sent, CPC.locked 7, [], []⟩
    ⟨[Action.cons 7, Action.prod], by decide⟩ (by decide) (by decide) (by decide)
  exact absurd hx (by decide)

/-- Claim C7, amended: the send always happens-before the runner
inspects and consumes the wake-handle (by the time the runner is at or
past its lock-protected take step the value is already in the slot
unless the consumer drained it), and that take step does occur under
the same lock poll uses; the send itself, however, executes regardless
of who holds the lock and without acquiring it. -/
theorem send_before_take_waker {α ω : Type} (v : α) (s : Sys α ω)
    (hR : Reach (ClosureBeh.returns v) s) :
    ((s.ppc = PPC.critical ∨ s.ppc = PPC.afterWake ∨ s.ppc = PPC.done) →
      (s.chan.buf = some v ∨ s.cpc = CPC.finished v)) ∧
    (s.ppc = PPC.critical → s.lock = some Agent.prod) ∧
    (∀ s', s.ppc = PPC.afterF → pstep (ClosureBeh.returns v) s = some s' →
      s'.chan.buf = some v ∧ s'.lock = s.lock ∧ s'.ppc = PPC.sent) := by
  have hI := inv_reach hR
  refine ⟨?_, ?_, ?_⟩
  · intro h
    exact hI.bufPost (by tauto)
  · intro h
    exact hI.lockP.mpr (Or.inl h)
  · intro s' hF hp
    have hb : s.chan.buf = none := hI.bufPre (Or.inr hF)
    simp only [pstep, hF, Chan.send, hb] at hp
    have h' := Option.some.inj hp
    subst h'
    exact ⟨rfl, rfl, rfl⟩

theorem send_before_take_waker_w :
    ((⟨⟨some 1, true⟩, none, some Agent.cons, PPC.sent, CPC.locked 7, [], []⟩ :
        Sys Nat Nat)).chan.buf = some 1 :=
  ((send_before_take_waker 1
      ⟨⟨none, true⟩, none, some Agent.cons, PPC.afterF, CPC.locked 7, [], []⟩
      ⟨[Action.cons 7, Action.prod], by decide⟩).2.2
    ⟨⟨some 1, true⟩, none, some Agent.cons, PPC.sent, CPC.locked 7, [], []⟩
    (by decide) (by decide)).1

/-- Claim C8: if the runner has fully finished before the consumer ever
polls (no Pending poll was recorded), then no waker is stored, and the
first poll runs to Ready(v) immediately, still registering no waker. -/
theorem late_poll_ready {α ω : Type} (v : α) (w : ω) (s : Sys α ω)
    (hR : Reach (ClosureBeh.returns v) s) (hd : s.ppc = PPC.done)
    (hi : s.cpc = CPC.idle) (hp : s.pends = []) :
    s.waker = none ∧
      run (ClosureBeh.returns v) [Action.cons w, Action.cons w] s =
        some ⟨⟨none, false⟩, none, none, PPC.done, CPC.finished v, [], s.woken⟩ := by
  have hI := inv_reach hR
  have hw : s.waker = none := by
    cases hwk : s.waker with
    | none => rfl
    | some x =>
        have hx := hI.wlast x hwk
        rw [hp] at hx
        cases hx
  have hbuf : s.chan.buf = some v := by
    rcases hI.bufPost (by simp [hd]) with hb | hb
    · exact hb
    · rw [hi] at hb; cases hb
  have hal : s.chan.senderAlive = false := by
    have hx : ¬ s.chan.senderAlive = true := fun hx => (hI.alive.mp hx) hd
    simpa using hx
  have hlk : s.lock = none := by
    cases hlk : s.lock with
    | none => rfl
    | some ag =>
        cases ag with
        | prod =>
            rcases hI.lockP.mp hlk with h | h <;> rw [hd] at h <;> cases h
        | cons =>
            obtain ⟨x, hx | hx⟩ := hI.lockC.mp hlk <;> rw [hi] at hx <;> cases hx
  refine ⟨hw, ?_⟩
  simp [run, step, cstep, Chan.tryRecv, hi, hlk, hbuf, hal, hw, hd, hp,
    Sys.mk.injEq]

theorem late_poll_ready_w :
    run (ClosureBeh.returns 1) [Action.cons 0, Action.cons 0]
      (⟨⟨some 1, false⟩, none, none, PPC.done, CPC.idle, [], []⟩ : Sys Nat Nat) =
      some ⟨⟨none, false⟩, none, none, PPC.done, CPC.finished 1, [], []⟩ :=
  (late_poll_ready 1 0 _
    ⟨[Action.prod, Action.prod, Action.prod, Action.prod, Action.prod], by decide⟩
    (by decide) (by decide) (by decide)).2

/-- Claim C9: at most one wake-handle is stored (the field is a single
Option); a stored handle is always the one registered by the most
recent Pending poll; the storing step replaces the previous handle
outright; and the runner removes the handle when it consumes it. -/
theorem waker_most_recent {α ω : Type} (v : α) (s : Sys α ω)
    (hR : Reach (ClosureBeh.returns v) s) :
    (∀ w, s.waker = some w → s.pends.head? = some w) ∧
    (∀ (w0 : ω) (a : ω) (s' : Sys α ω), s.cpc = CPC.empty w0 → cstep a s = some s' →
      s'.waker = some w0 ∧ s'.pends = w0 :: s.pends) ∧
    (∀ s' : Sys α ω, s.ppc = PPC.critical → pstep (ClosureBeh.returns v) s = some s' →
      s'.waker = none) := by
  have hI := inv_reach hR
  refine ⟨hI.wlast, ?_, ?_⟩
  · intro w0 a s' hc hs
    simp only [cstep, hc] at hs
    have h' := Option.some.inj hs
    subst h'
    exact ⟨rfl, rfl⟩
  · intro s' hc hs
    cases hwk : s.waker with
    | none =>
        simp only [pstep, hc, hwk] at hs
        have h' := Option.some.inj hs
        subst h'
        rfl
    | some w0 =>
        simp only [pstep, hc, hwk] at hs
        have h' := Option.some.inj hs
        subst h'
        rfl

theorem waker_most_recent_w :
    ([7] : List Nat).head? = some 7 :=
  (waker_most_recent 1
    (⟨⟨none, true⟩, some 7, none, PPC.start, CPC.idle, [7], []⟩ : Sys Nat Nat)
    ⟨[Action.cons 7, Action.cons 7, Action.cons 7], by decide⟩).1 7 (by decide)

/-- Claim C10: a poll that returns Ready leaves the stored waker field
unchanged; every poll either leaves the field unchanged or is the
Pending branch storing its own waker; only the runner clears it; and
consequently a stale waker registered by an earlier Pending poll can
still be invoked by the runner after the value has been delivered, as
the concrete schedule in the last conjunct shows. -/
theorem poll_ready_waker_frame {α ω : Type} :
    (∀ (st st' : State α ω) (w : ω) (v : α),
      poll st w = some (Poll.Ready v, st') → st'.waker = st.waker) ∧
    (∀ (st st' : State α ω) (w : ω) (p : Poll α),
      poll st w = some (p, st') → st'.waker = st.waker ∨
        (p = Poll.Pending ∧ st'.waker = some w)) ∧
    (∀ (beh : ClosureBeh α) (s s' : Sys α ω),
      s.ppc = PPC.critical → pstep beh s = some s' → s'.waker = none) ∧
    (run (ClosureBeh.returns 1)
      [Action.cons 7, Action.cons 7, Action.cons 7, Action.prod, Action.prod,
       Action.cons 9, Action.cons 9, Action.prod, Action.prod, Action.prod]
      (spawnInit : Sys Nat Nat) =
      some ⟨⟨none, false⟩, none, none, PPC.done, CPC.finished 1, [7], [7]⟩) := by
  refine ⟨?_, ?_, ?_, by decide⟩
  · intro st st' w v h
    obtain ⟨⟨buf, al⟩, wk⟩ := st
    obtain ⟨⟨buf2, al2⟩, wk2⟩ := st'
    cases buf <;> cases al <;>
      simp_all [poll, Chan.tryRecv, State.mk.injEq, Chan.mk.injEq]
  · intro st st' w p h
    obtain ⟨⟨buf, al⟩, wk⟩ := st
    obtain ⟨⟨buf2, al2⟩, wk2⟩ := st'
    cases buf <;> cases al <;>
      simp_all [poll, Chan.tryRecv, State.mk.injEq, Chan.mk.injEq]
  · intro beh s s' hc hs
    cases hwk : s.waker with
    | none =>
        simp only [pstep, hc, hwk] at hs
        have h' := Option.some.inj hs
        subst h'
        rfl
    | some w0 =>
        simp only [pstep, hc, hwk] at hs
        have h' := Option.some.inj hs
        subst h'
        rfl

theorem poll_ready_waker_frame_w :
    (⟨⟨none, true⟩, some 7⟩ : State Nat Nat).waker =
      (⟨⟨some 3, true⟩, some 7⟩ : State Nat Nat).waker :=
  (poll_ready_waker_frame).1 ⟨⟨some 3, true⟩, some 7⟩ ⟨⟨none, true⟩, some 7⟩ 9 3 rfl

end RayonFut
